import Mathlib

/-!
Verification development for the rust-chess engine.

The definitions below are a shallow embedding of the sources in
`rust-chess-core/src` (`pos.rs`, `move.rs`, `board.rs`, `game.rs`,
`piece_moves_iterator.rs`).  Machine integers (`i8`) are modelled as `Int`
(no arithmetic in the embedded fragment overflows `i8`), Rust `Result` as
`Except String`, and a Rust panic as `Option.none` wrapped around the
returned value.  The 64-square array is modelled as a function from the
flat index `row * 8 + col` to squares, which mirrors the `get_index`
indexing of the source including its aliasing behaviour for in-range
indices computed from out-of-range coordinates.
-/

namespace RustChess

/-- Embeds `PieceColor` from `board.rs`. -/
inductive PieceColor where
  | white
  | black
deriving DecidableEq, Repr

/-- Embeds `PieceColor::opposite`. -/
def PieceColor.opposite : PieceColor → PieceColor
  | .white => .black
  | .black => .white

/-- Embeds `PieceType` from `board.rs`. -/
inductive PieceType where
  | pawn
  | bishop
  | knight
  | rook
  | queen
  | king
deriving DecidableEq, Repr

/-- Embeds `PieceType::is_valid_for_promotion`. -/
def PieceType.isValidForPromotion : PieceType → Bool
  | .pawn | .king => false
  | .bishop | .knight | .rook | .queen => true

/-- Embeds `BoardSquare` from `board.rs`. -/
structure BoardSquare where
  pieceType : Option PieceType
  pieceColor : PieceColor
deriving DecidableEq, Repr

/-- Embeds `BoardSquare::empty`. -/
def BoardSquare.emptySquare : BoardSquare := ⟨none, .white⟩

/-- Embeds `BoardSquare::with`. -/
def BoardSquare.mkWith (t : PieceType) (c : PieceColor) : BoardSquare := ⟨some t, c⟩

/-- Embeds `BoardSquare::is_empty`. -/
def BoardSquare.isEmpty (s : BoardSquare) : Bool := s.pieceType.isNone

/-- Embeds `BoardSquare::is_occupied`. -/
def BoardSquare.isOccupied (s : BoardSquare) : Bool := !s.isEmpty

/-- Embeds `BoardSquare::is_occupied_by_color`. -/
def BoardSquare.isOccupiedByColor (s : BoardSquare) (c : PieceColor) : Bool :=
  s.isOccupied && decide (s.pieceColor = c)

/-- Embeds `BoardSquare::piece`. -/
def BoardSquare.piece (s : BoardSquare) : Option (PieceType × PieceColor) :=
  match s.pieceType with
  | some t => some (t, s.pieceColor)
  | none => none

/-- Embeds `Pos` from `pos.rs`. -/
structure Pos where
  col : Int
  row : Int
deriving DecidableEq, Repr

/-- Embeds `Pos::tuple`. -/
def Pos.tuple (p : Pos) : Int × Int := (p.col, p.row)

/-- Embeds `Pos::is_out_of_bounds`. -/
def Pos.isOutOfBounds (p : Pos) : Bool :=
  decide (p.col < 0) || decide (p.col > 7) || decide (p.row < 0) || decide (p.row > 7)

/-- Embeds `impl Add for Pos`. -/
def Pos.add (p q : Pos) : Pos := ⟨p.col + q.col, p.row + q.row⟩

/-- Embeds `Move` from `move.rs`; all five fields are public in the source,
so arbitrary field values are constructible there via a struct literal. -/
structure Move where
  fromCol : Int
  fromRow : Int
  toCol : Int
  toRow : Int
  promotionTo : Option PieceType
deriving DecidableEq, Repr

/-- Embeds the bound test of `Board::panic_if_out_of_bounds` (true when the
source function would panic). -/
def coordsOutOfBounds (col row : Int) : Bool :=
  decide (col < 0) || decide (row < 0) || decide (col > 7) || decide (row > 7)

/-- Embeds `Move::new`; `none` models the panic on out-of-range coordinates. -/
def Move.new? (fromCol fromRow toCol toRow : Int) : Option Move :=
  if coordsOutOfBounds fromCol fromRow || coordsOutOfBounds toCol toRow then none
  else some ⟨fromCol, fromRow, toCol, toRow, none⟩

/-- Embeds `Move::with_promotion`; `none` models the panics on out-of-range
coordinates and on an invalid promotion piece. -/
def Move.withPromotion? (fromCol fromRow toCol toRow : Int) (promotionTo : PieceType) :
    Option Move :=
  if coordsOutOfBounds fromCol fromRow || coordsOutOfBounds toCol toRow then none
  else if !promotionTo.isValidForPromotion then none
  else some ⟨fromCol, fromRow, toCol, toRow, some promotionTo⟩

/-- Embeds `Move::from`. -/
def Move.moveFrom (m : Move) : Int × Int := (m.fromCol, m.fromRow)

/-- Embeds `Move::to`. -/
def Move.moveTo (m : Move) : Int × Int := (m.toCol, m.toRow)

/-- Embeds `Move::is_diagonal`. -/
def Move.isDiagonal (m : Move) : Bool :=
  decide ((m.fromCol - m.toCol).natAbs = (m.fromRow - m.toRow).natAbs)

/-- Embeds `Move::is_straight`. -/
def Move.isStraight (m : Move) : Bool :=
  decide (m.fromCol = m.toCol) || decide (m.fromRow = m.toRow)

/-- Embeds `Move::is_pawn_move`. -/
def Move.isPawnMove (m : Move) (pawnColor : PieceColor) : Bool :=
  if m.fromCol ≠ m.toCol then false
  else
    let validPawnDirection : Int := if pawnColor = .white then 1 else -1
    let rowForTwoStep : Int := if pawnColor = .white then 1 else 6
    let isStepOk :=
      decide (m.toRow = m.fromRow + validPawnDirection) ||
        (decide (m.toRow = m.fromRow + validPawnDirection * 2) &&
          decide (m.fromRow = rowForTwoStep))
    if !isStepOk then false
    else if (m.toRow = 0 ∨ m.toRow = 7) ∧ m.promotionTo = none then false
    else if 1 ≤ m.toRow ∧ m.toRow ≤ 6 ∧ m.promotionTo ≠ none then false
    else true

/-- Embeds `Move::is_pawn_capture`. -/
def Move.isPawnCapture (m : Move) (pawnColor : PieceColor) : Bool :=
  if pawnColor = .white then
    if m.toRow ≠ m.fromRow + 1 then false
    else decide ((m.fromCol - m.toCol).natAbs = 1)
  else
    if m.toRow ≠ m.fromRow - 1 then false
    else decide ((m.fromCol - m.toCol).natAbs = 1)

/-- Embeds `Move::is_knight_move`. -/
def Move.isKnightMove (m : Move) : Bool :=
  let verticalMove := (m.fromRow - m.toRow).natAbs
  let horizontalMove := (m.fromCol - m.toCol).natAbs
  decide (verticalMove > 0) && decide (horizontalMove > 0) &&
    decide (verticalMove + horizontalMove = 3)

/-- Embeds `Move::is_regular_king_move`. -/
def Move.isRegularKingMove (m : Move) : Bool :=
  decide ((m.fromRow - m.toRow).natAbs ≤ 1) && decide ((m.fromCol - m.toCol).natAbs ≤ 1)

/-- The half-open integer interval `[a, b)`, used to embed Rust `for x in a..b`
loops. -/
def intRange (a b : Int) : List Int :=
  (List.range (b - a).toNat).map (fun (i : Nat) => a + (i : Int))

/-- Embeds `Board` from `board.rs`: the square array as a function of the flat
index, so that `at` reproduces `squares[get_index(col, row)]` for every index
that lands in range. -/
structure Board where
  squares : Int → BoardSquare

/-- Embeds `Board::get_index`. -/
def Board.getIndex (col row : Int) : Int := row * 8 + col

/-- Embeds `Board::at` (read access). -/
def Board.atSquare (b : Board) (col row : Int) : BoardSquare :=
  b.squares (Board.getIndex col row)

/-- Embeds `Board::set`. -/
def Board.set (b : Board) (col row : Int) (piece : PieceType) (color : PieceColor) : Board :=
  ⟨fun i => if i = Board.getIndex col row then BoardSquare.mkWith piece color else b.squares i⟩

/-- Embeds `Board::clear_square`. -/
def Board.clearSquare (b : Board) (col row : Int) : Board :=
  ⟨fun i => if i = Board.getIndex col row then BoardSquare.emptySquare else b.squares i⟩

/-- Embeds `Board::empty`. -/
def Board.emptyBoard : Board := ⟨fun _ => BoardSquare.emptySquare⟩

/-- Embeds `Board::new_chess_game`. -/
def Board.newChessGame : Board :=
  let b := Board.emptyBoard
  let b := b.set 0 0 .rook .white
  let b := b.set 1 0 .knight .white
  let b := b.set 2 0 .bishop .white
  let b := b.set 3 0 .queen .white
  let b := b.set 4 0 .king .white
  let b := b.set 5 0 .bishop .white
  let b := b.set 6 0 .knight .white
  let b := b.set 7 0 .rook .white
  let b := (intRange 0 8).foldl (fun b i => b.set i 1 .pawn .white) b
  let b := (intRange 0 8).foldl (fun b i => b.set i 6 .pawn .black) b
  let b := b.set 0 7 .rook .black
  let b := b.set 1 7 .knight .black
  let b := b.set 2 7 .bishop .black
  let b := b.set 3 7 .queen .black
  let b := b.set 4 7 .king .black
  let b := b.set 5 7 .bishop .black
  let b := b.set 6 7 .knight .black
  let b := b.set 7 7 .rook .black
  b

/-- Embeds `Board::is_move_over_pieces_straight`; the source asserts
`mv.is_straight()` and is only invoked under that guard. -/
def Board.isMoveOverPiecesStraight (b : Board) (m : Move) : Bool :=
  if m.fromRow = m.toRow then
    (intRange (min m.fromCol m.toCol + 1) (max m.fromCol m.toCol)).any
      (fun col => (b.atSquare col m.fromRow).isOccupied)
  else
    (intRange (min m.fromRow m.toRow + 1) (max m.fromRow m.toRow)).any
      (fun row => (b.atSquare m.fromCol row).isOccupied)

/-- Embeds `Board::is_move_over_pieces_diagonal`; the source asserts
`mv.is_diagonal()` and is only invoked under that guard. -/
def Board.isMoveOverPiecesDiagonal (b : Board) (m : Move) : Bool :=
  let moveHorizontal := (m.toCol - m.fromCol).sign
  let moveVertical := (m.toRow - m.fromRow).sign
  (intRange 1 ((m.fromCol - m.toCol).natAbs : Int)).any (fun i =>
    (b.atSquare (m.fromCol + i * moveHorizontal) (m.fromRow + i * moveVertical)).isOccupied)

/-- Embeds `Board::is_possible_rook_capture`. -/
def Board.isPossibleRookCapture (b : Board) (m : Move) : Bool :=
  m.isStraight && !(b.isMoveOverPiecesStraight m)

/-- Embeds `Board::is_possible_bishop_capture`. -/
def Board.isPossibleBishopCapture (b : Board) (m : Move) : Bool :=
  m.isDiagonal && !(b.isMoveOverPiecesDiagonal m)

/-- Embeds `Board::is_possible_queen_capture`. -/
def Board.isPossibleQueenCapture (b : Board) (m : Move) : Bool :=
  b.isPossibleRookCapture m || b.isPossibleBishopCapture m

/-- Embeds `Board::is_en_passant_move`.  Note that the returned position is
`Pos::new(mv.from_col, mv.to_row)` exactly as in the source. -/
def Board.isEnPassantMove (b : Board) (m : Move) : Option Pos :=
  let sq := b.atSquare m.fromCol m.fromRow
  if sq.pieceType ≠ some .pawn then none
  else if !(m.isPawnCapture sq.pieceColor) then none
  else if (b.atSquare m.toCol m.toRow).isOccupied then none
  else some ⟨m.fromCol, m.toRow⟩

/-- Embeds `Board::is_castle_move`. -/
def Board.isCastleMove (b : Board) (m : Move) : Option (Pos × Pos) :=
  if (m.fromRow ≠ 0 ∧ m.fromRow ≠ 7) ∨ m.fromCol ≠ 4 then none
  else if m.toRow ≠ m.fromRow then none
  else
    match (b.atSquare m.fromCol m.fromRow).piece with
    | none => none
    | some (pieceType, pieceColor) =>
      if pieceType ≠ .king then none
      else if pieceColor = .white ∧ m.fromRow ≠ 0 then none
      else if pieceColor = .black ∧ m.fromRow ≠ 7 then none
      else if m.toCol ≠ 6 ∧ m.toCol ≠ 2 then none
      else
        let rookCol : Int := if m.toCol = 6 then 7 else 0
        let newRookCol : Int := if m.toCol = 6 then 5 else 3
        some (⟨rookCol, m.fromRow⟩, ⟨newRookCol, m.fromRow⟩)

/-- Embeds `Board::make_move`.  The result is `none` exactly when the source
panics, i.e. when the source square is empty and no promotion piece is given
(`sq.piece_type().unwrap()`).  The en-passant and castle post-processing is
performed, as in the source, on the board that has already had the source
square cleared and the destination square set. -/
def Board.makeMove? (b : Board) (m : Move) : Option Board :=
  let sq := b.atSquare m.fromCol m.fromRow
  let pieceTypeOpt :=
    match m.promotionTo with
    | some promotion => some promotion
    | none => sq.pieceType
  match pieceTypeOpt with
  | none => none
  | some pieceType =>
    let b1 := (b.clearSquare m.fromCol m.fromRow).set m.toCol m.toRow pieceType sq.pieceColor
    let b2 :=
      match b1.isEnPassantMove m with
      | some enPassantAt => b1.clearSquare enPassantAt.col enPassantAt.row
      | none => b1
    let b3 :=
      match b2.isCastleMove m with
      | some (oldRookCoords, newRookCoords) =>
        (b2.clearSquare oldRookCoords.col oldRookCoords.row).set
          newRookCoords.col newRookCoords.row .rook sq.pieceColor
      | none => b2
    some b3

/-- The inner per-piece test of `Board::is_under_attack` (the `match piece`
expression in the source loop body). -/
def Board.attackCheck (b : Board) (piece : PieceType) (color : PieceColor) (m : Move) : Bool :=
  match piece with
  | .pawn => m.isPawnCapture color
  | .bishop => b.isPossibleBishopCapture m
  | .knight => m.isKnightMove
  | .rook => b.isPossibleRookCapture m
  | .queen => b.isPossibleQueenCapture m
  | .king => m.isRegularKingMove

/-- The loop body of `Board::is_under_attack`: does the piece on
`(col, row)` (if any, and of the attacking color) deliver the capture
pattern onto the target square? -/
def Board.attackerAt (b : Board) (targetCol targetRow : Int) (attackingColor : PieceColor)
    (col row : Int) : Bool :=
  match (b.atSquare col row).piece with
  | none => false
  | some (piece, color) =>
    if color ≠ attackingColor then false
    else b.attackCheck piece color ⟨col, row, targetCol, targetRow, none⟩

/-- Embeds `Board::is_under_attack` (a scan over all 64 squares, columns in
the outer loop). -/
def Board.isUnderAttack (b : Board) (targetCol targetRow : Int) (attackingColor : PieceColor) :
    Bool :=
  (intRange 0 8).any fun col =>
    (intRange 0 8).any fun row =>
      b.attackerAt targetCol targetRow attackingColor col row

/-- The column-major traversal order of the `find_king` scan (`col` in the
outer loop, `row` in the inner loop, first match wins via `break 'outer`). -/
def boardSquaresColMajor : List (Int × Int) :=
  (intRange 0 8).flatMap (fun col => (intRange 0 8).map (fun row => (col, row)))

/-- The test of the `find_king` scan: does `(q.1, q.2)` hold a king of the
requested color? -/
def Board.isKingSquare (b : Board) (kingColor : PieceColor) (q : Int × Int) : Bool :=
  match (b.atSquare q.1 q.2).piece with
  | some (piece, color) => decide (color = kingColor) && decide (piece = .king)
  | none => false

/-- Embeds `Board::find_king`. -/
def Board.findKing (b : Board) (kingColor : PieceColor) : Option Pos :=
  match boardSquaresColMajor.find? (b.isKingSquare kingColor) with
  | some p => some ⟨p.1, p.2⟩
  | none => none

/-- Embeds `Board::is_check`; `none` models the
`expect("No king on the board!")` panic. -/
def Board.isCheck? (b : Board) (kingColor : PieceColor) : Option Bool :=
  (b.findKing kingColor).map (fun king => b.isUnderAttack king.col king.row kingColor.opposite)

/-- Embeds `Board::is_possible_castle_move`. -/
def Board.isPossibleCastleMove (b : Board) (m : Move) : Option (Pos × Pos) :=
  match b.isCastleMove m with
  | none => none
  | some (rookPos, newRookPos) =>
    let kingColor := (b.atSquare m.fromCol m.fromRow).pieceColor
    match (b.atSquare rookPos.col rookPos.row).piece with
    | none => none
    | some (pieceType, pieceColor) =>
      if pieceType ≠ .rook ∨ pieceColor ≠ kingColor then none
      else
        let underAttackCheckRange := if m.toCol = 6 then intRange 4 7 else intRange 2 5
        let occupiedCheckRange := if m.toCol = 6 then intRange 5 7 else intRange 1 4
        if underAttackCheckRange.any
            (fun col => b.isUnderAttack col m.fromRow kingColor.opposite) then none
        else if occupiedCheckRange.any
            (fun col => (b.atSquare col m.fromRow).isOccupied) then none
        else some (rookPos, newRookPos)

/-- Embeds `GameHistory` from `game.rs`. -/
structure GameHistory where
  initialState : Option Board
  initialTurn : Option PieceColor
  moves : List Move

/-- Embeds `GameHistory::new`. -/
def GameHistory.newHistory : GameHistory := ⟨none, none, []⟩

/-- Embeds `GameHistory::with_moves`. -/
def GameHistory.withMoves (moves : List Move) : GameHistory := ⟨none, none, moves⟩

/-- Embeds `GameResult` from `game.rs` (`winner` is `none` for a draw). -/
structure GameResult where
  winner : Option PieceColor
deriving DecidableEq, Repr

/-- Embeds the `Game` struct from `game.rs`. -/
structure Game where
  board : Board
  turn : PieceColor
  possibleMoves : List Move
  isCheck : Bool
  history : GameHistory
  result : Option GameResult

/-- Embeds `Game::validate_pawn_move` (returns `true` when the move is a
promotion, as in the source). -/
def Game.validatePawnMove (g : Game) (m : Move) (color : PieceColor) : Except String Bool :=
  if m.isPawnMove color then
    if (g.board.atSquare m.toCol m.toRow).isOccupied then
      .error "Pawn move blocked by another piece"
    else
      let blockedTwoStep :=
        if (m.fromRow - m.toRow).natAbs = 2 then
          let row := if color = .white then m.fromRow + 1 else m.fromRow - 1
          (g.board.atSquare m.fromCol row).isOccupied
        else false
      if blockedTwoStep then .error "Pawn move blocked by another piece"
      else if m.toRow = 7 ∨ m.toRow = 0 then .ok true
      else .ok false
  else if m.isPawnCapture color then
    match g.board.isEnPassantMove m with
    | some enPassantPos =>
      let enPassantMoveFrom : Int × Int := if color = .white then (m.toCol, 6) else (m.toCol, 1)
      match g.history.moves.getLast? with
      | none => .error "Invalid move"
      | some lastMove =>
        if lastMove.moveFrom ≠ enPassantMoveFrom ∨ lastMove.moveTo ≠ enPassantPos.tuple then
          .error "Invalid move"
        else .ok false
    | none => .ok false
  else .error "Invalid move"

/-- Embeds `Game::is_legal_castle_move`. -/
def Game.isLegalCastleMove (g : Game) (m : Move) : Bool :=
  match g.board.isPossibleCastleMove m with
  | none => false
  | some (oldRookPos, _) =>
    if g.isCheck then false
    else
      let hadMovesFromRookOrKing := g.history.moves.any (fun hMv =>
        decide (hMv.fromRow = m.fromRow) &&
          (decide (hMv.fromCol = m.fromCol) || decide (hMv.fromCol = oldRookPos.col)))
      if hadMovesFromRookOrKing then false else true

/-- Embeds `Game::validate_king_move`. -/
def Game.validateKingMove (g : Game) (m : Move) : Except String Unit :=
  if m.isRegularKingMove || g.isLegalCastleMove m then .ok ()
  else .error "Invalid move"

/-- Embeds `Game::validate_move`; the outer `Option` is `none` exactly when
the source panics (inside the board simulation or the `is_check` call).
Note that `validate_move` reads only the `board`, `turn`, `is_check` and
`history` fields of `Game`. -/
def Game.validateMove (g : Game) (m : Move) : Option (Except String Unit) :=
  if m.fromCol > 7 ∨ m.fromRow > 7 ∨ m.toCol > 7 ∨ m.toRow > 7 then
    some (.error "Out of bounds")
  else if m.fromCol = m.toCol ∧ m.fromRow = m.toRow then
    some (.error "Can't move to the same square")
  else
    let fromSquare := g.board.atSquare m.fromCol m.fromRow
    let color := fromSquare.pieceColor
    match fromSquare.pieceType with
    | none => some (.error "No piece at the source square")
    | some piece =>
      if color ≠ g.turn then some (.error "Cannot move the opponent's piece")
      else if (g.board.atSquare m.toCol m.toRow).isOccupiedByColor color then
        some (.error "Cannot move on your own piece")
      else if piece ≠ .pawn ∧ m.promotionTo ≠ none then
        some (.error "Only pawns can be promoted")
      else
        let isValidMove : Bool :=
          match piece with
          | .pawn => match g.validatePawnMove m color with | .ok _ => true | .error _ => false
          | .bishop => g.board.isPossibleBishopCapture m
          | .knight => m.isKnightMove
          | .rook => g.board.isPossibleRookCapture m
          | .queen => g.board.isPossibleQueenCapture m
          | .king => match g.validateKingMove m with | .ok _ => true | .error _ => false
        if !isValidMove then some (.error "Invalid move for the piece")
        else
          match g.board.makeMove? m with
          | none => none
          | some imitatedBoard =>
            match imitatedBoard.isCheck? color with
            | none => none
            | some true => some (.error "King would be under attack")
            | some false => some (.ok ())

/-- Embeds `KNIGHT_OFFSETS` from `board.rs`. -/
def knightOffsets : List Pos :=
  [⟨2, 1⟩, ⟨2, -1⟩, ⟨-2, 1⟩, ⟨-2, -1⟩, ⟨1, 2⟩, ⟨1, -2⟩, ⟨-1, 2⟩, ⟨-1, -2⟩]

/-- Embeds `KING_OFFSETS` from `board.rs`. -/
def kingOffsets : List Pos :=
  [⟨-1, -1⟩, ⟨0, -1⟩, ⟨1, -1⟩, ⟨-1, 0⟩, ⟨1, 0⟩, ⟨-1, 1⟩, ⟨0, 1⟩, ⟨1, 1⟩]

/-- Embeds `PieceMovesIter::ROOK_INCREMENTS`. -/
def rookIncrements : List Pos := [⟨1, 0⟩, ⟨-1, 0⟩, ⟨0, 1⟩, ⟨0, -1⟩]

/-- Embeds `PieceMovesIter::BISHOP_INCREMENTS`. -/
def bishopIncrements : List Pos := [⟨1, 1⟩, ⟨1, -1⟩, ⟨-1, 1⟩, ⟨-1, -1⟩]

/-- One pawn phase of `PieceMovesIter::next_pawn`: skip an out-of-bounds
target, otherwise yield the move, as a Queen promotion when the target row
is a back rank. -/
def pawnCandidateTarget (src : Pos) (pos : Pos) : List Move :=
  if pos.isOutOfBounds then []
  else if pos.row = 0 ∨ pos.row = 7 then [⟨src.col, src.row, pos.col, pos.row, some .queen⟩]
  else [⟨src.col, src.row, pos.col, pos.row, none⟩]

/-- The candidate sequence produced by `PieceMovesIter::next_pawn` (phases
0 to 3 in order: single push, double push, right diagonal, left diagonal). -/
def pawnCandidates (pieceColor : PieceColor) (src : Pos) : List Move :=
  let dir : Int := if pieceColor = .white then 1 else -1
  pawnCandidateTarget src ⟨src.col, src.row + dir⟩ ++
    pawnCandidateTarget src ⟨src.col, src.row + 2 * dir⟩ ++
    pawnCandidateTarget src ⟨src.col + 1, src.row + dir⟩ ++
    pawnCandidateTarget src ⟨src.col - 1, src.row + dir⟩

/-- The candidate sequence of the fixed-offset pieces (`next_knight` and the
offset phases of `next_king`): each offset bounds-filtered, in table order. -/
def offsetCandidates (src : Pos) (offsets : List Pos) : List Move :=
  offsets.flatMap (fun off =>
    let toPos := src.add off
    if toPos.isOutOfBounds then [] else [⟨src.col, src.row, toPos.col, toPos.row, none⟩])

/-- One step of `PieceMovesIter::next_simple`: stop off the board, walk over
and yield empty squares, yield an enemy square once, stop at an own piece.
The fuel argument only forces termination; a ray leaves the board after at
most eight steps, so fuel 16 never runs out before the source loop stops. -/
def rayMovesGo (b : Board) (pieceColor : PieceColor) (src : Pos) (inc : Pos) :
    Pos → Nat → List Move
  | _, 0 => []
  | cur, fuel + 1 =>
    if cur.isOutOfBounds then []
    else
      let target := b.atSquare cur.col cur.row
      if target.isEmpty then
        ⟨src.col, src.row, cur.col, cur.row, none⟩ :: rayMovesGo b pieceColor src inc (cur.add inc) fuel
      else if target.isOccupiedByColor pieceColor.opposite then
        [⟨src.col, src.row, cur.col, cur.row, none⟩]
      else []

/-- The candidate sequence of one slider direction (one `increment_rook` /
`increment_bishop` phase driven through `next_simple`). -/
def rayMoves (b : Board) (pieceColor : PieceColor) (src : Pos) (inc : Pos) : List Move :=
  rayMovesGo b pieceColor src inc (src.add inc) 16

/-- The full pseudo-candidate sequence of `PieceMovesIter` for one square,
before the `validate_move` filter of `PieceMovesIter::next`
(`game.iterate_through_moves` reads the piece type and color from the
square itself). -/
def candidateMovesFrom (b : Board) (fromCol fromRow : Int) : List Move :=
  let square := b.atSquare fromCol fromRow
  match square.pieceType with
  | none => []
  | some pieceType =>
    let pieceColor := square.pieceColor
    let src : Pos := ⟨fromCol, fromRow⟩
    match pieceType with
    | .pawn => pawnCandidates pieceColor src
    | .knight => offsetCandidates src knightOffsets
    | .bishop => bishopIncrements.flatMap (rayMoves b pieceColor src)
    | .rook => rookIncrements.flatMap (rayMoves b pieceColor src)
    | .queen => (rookIncrements ++ bishopIncrements).flatMap (rayMoves b pieceColor src)
    | .king =>
      let castleRow : Int := if pieceColor = .white then 0 else 7
      offsetCandidates src kingOffsets ++
        (if fromRow = castleRow ∧ fromCol = 4 then
          [⟨fromCol, fromRow, 6, castleRow, none⟩, ⟨fromCol, fromRow, 2, castleRow, none⟩]
        else [])

/-- The `validate_move` filter applied by `PieceMovesIter::next` to the
candidate sequence; `none` models a panic escaping from `validate_move`. -/
def validateCandidates (g : Game) : List Move → Option (List Move)
  | [] => some []
  | m :: ms =>
    match g.validateMove m with
    | none => none
    | some (.ok _) => (validateCandidates g ms).map (fun l => m :: l)
    | some (.error _) => validateCandidates g ms

/-- The full per-square legal move sequence yielded by
`Game::iterate_through_moves` (candidates filtered through the validator). -/
def Game.movesFromSquare (g : Game) (col row : Int) : Option (List Move) :=
  validateCandidates g (candidateMovesFrom g.board col row)

/-- The row-major traversal order of `Game::collect_possible_moves`
(`row` in the outer loop, `col` in the inner loop). -/
def boardSquaresRowMajor : List (Int × Int) :=
  (intRange 0 8).flatMap (fun row => (intRange 0 8).map (fun col => (col, row)))

/-- The loop body of `Game::collect_possible_moves`: skip empty squares,
concatenate the per-square sequences. -/
def collectFromSquares (g : Game) : List (Int × Int) → Option (List Move)
  | [] => some []
  | (col, row) :: rest =>
    if (g.board.atSquare col row).isEmpty then collectFromSquares g rest
    else
      match g.movesFromSquare col row with
      | none => none
      | some l => (collectFromSquares g rest).map (fun ls => l ++ ls)

/-- Embeds `Game::collect_possible_moves`. -/
def Game.collectPossibleMoves (g : Game) : Option (List Move) :=
  collectFromSquares g boardSquaresRowMajor

/-- Embeds `Game::collect_game_state`: recompute the check flag (a panic
when the side to move has no king — modelled by `none`), recompute the
move list with the updated flag in place, then set the result exactly when
the list is empty. -/
def Game.collectGameState (g : Game) : Option Game :=
  match g.board.isCheck? g.turn with
  | none => none
  | some chk =>
    let g1 : Game := { g with isCheck := chk }
    match g1.collectPossibleMoves with
    | none => none
    | some moves =>
      let result :=
        if moves.isEmpty then
          some (if chk then (⟨some g.turn.opposite⟩ : GameResult) else (⟨none⟩ : GameResult))
        else g.result
      some { g1 with possibleMoves := moves, result := result }

/-- Embeds `Game::from_board`. -/
def Game.fromBoard (b : Board) (turn : PieceColor) : Option Game :=
  Game.collectGameState ⟨b, turn, [], false, GameHistory.newHistory, none⟩

/-- Embeds `Game::from_board_with_history`. -/
def Game.fromBoardWithHistory (b : Board) (turn : PieceColor) (history : GameHistory) :
    Option Game :=
  Game.collectGameState ⟨b, turn, [], false, history, none⟩

/-- Embeds `Game::new` (which calls `collect_possible_moves` only, leaving
the check flag and result at their initial values). -/
def Game.newGame : Option Game :=
  let g : Game := ⟨Board.newChessGame, .white, [], false, GameHistory.newHistory, none⟩
  g.collectPossibleMoves.map (fun moves => { g with possibleMoves := moves })

/-- Embeds `Game::make_move`. -/
def Game.makeMove (g : Game) (m : Move) : Option (Except String Game) :=
  if g.result.isSome then some (.error "Game is over")
  else
    match g.validateMove m with
    | none => none
    | some (.error e) => some (.error e)
    | some (.ok _) =>
      match g.board.makeMove? m with
      | none => none
      | some b =>
        let g1 : Game := { g with
          board := b
          history := { g.history with moves := g.history.moves ++ [m] }
          turn := if g.turn = .white then .black else .white }
        match g1.collectGameState with
        | none => none
        | some g2 => some (.ok g2)

/-- Embeds the promotion-character match of `Move::from_long_notation`
(`q`/`Q`, `r`/`R`, `b`/`B`, `n`/`N`; anything else panics, modelled `none`). -/
def promotionCharToPiece (c : Char) : Option PieceType :=
  if c.toNat = 113 ∨ c.toNat = 81 then some .queen
  else if c.toNat = 114 ∨ c.toNat = 82 then some .rook
  else if c.toNat = 98 ∨ c.toNat = 66 then some .bishop
  else if c.toNat = 110 ∨ c.toNat = 78 then some .knight
  else none

/-- Embeds `Move::from_long_notation`; `none` models the panics (too-short
input, invalid promotion character, and the `Move::new` /
`Move::with_promotion` constructor panics).  Character arithmetic uses the
code points 97 = a and 49 = 1, as in the source. -/
def Move.fromLong (s : List Char) : Option Move :=
  if s.length < 4 then none
  else
    let fromCol : Int := (s.getD 0 (Char.ofNat 0)).toNat - 97
    let fromRow : Int := (s.getD 1 (Char.ofNat 0)).toNat - 49
    let toCol : Int := (s.getD 2 (Char.ofNat 0)).toNat - 97
    let toRow : Int := (s.getD 3 (Char.ofNat 0)).toNat - 49
    if s.length = 5 then
      match promotionCharToPiece (s.getD 4 (Char.ofNat 0)) with
      | none => none
      | some promotionTo => Move.withPromotion? fromCol fromRow toCol toRow promotionTo
    else Move.new? fromCol fromRow toCol toRow

/-- Embeds the promotion character of `impl Display for Move`
(a question mark, code 63, for a piece that is invalid for promotion). -/
def pieceToPromotionChar : PieceType → Char
  | .queen => Char.ofNat 113
  | .rook => Char.ofNat 114
  | .bishop => Char.ofNat 98
  | .knight => Char.ofNat 110
  | _ => Char.ofNat 63

/-- Embeds `impl Display for Move` (the long-notation serialization):
each coordinate becomes the character at code point `'a' + col` resp.
`'1' + row`, followed by the promotion character when present. -/
def Move.toLong (m : Move) : List Char :=
  let fromColC := Char.ofNat (m.fromCol + 97).toNat
  let fromRowC := Char.ofNat (m.fromRow + 49).toNat
  let toColC := Char.ofNat (m.toCol + 97).toNat
  let toRowC := Char.ofNat (m.toRow + 49).toNat
  match m.promotionTo with
  | some promotionTo => [fromColC, fromRowC, toColC, toRowC, pieceToPromotionChar promotionTo]
  | none => [fromColC, fromRowC, toColC, toRowC]

deriving instance DecidableEq for Except

/-! Concrete boards and games used by the claim theorems and witnesses. -/

/-- White pawn on f5, black pawn on e5: the canonical en-passant situation
(after a black e7-e5 double step). -/
def boardEnPassant : Board := (Board.emptyBoard.set 5 4 .pawn .white).set 4 4 .pawn .black

/-- The en-passant capture f5e6. -/
def moveF5E6 : Move := ⟨5, 4, 4, 5, none⟩

/-- White king on e1 and white rook on h1, ready for kingside castling. -/
def boardCastle : Board := (Board.emptyBoard.set 4 0 .king .white).set 7 0 .rook .white

/-- The kingside castle move e1g1. -/
def moveE1G1 : Move := ⟨4, 0, 6, 0, none⟩

/-- The position of the repository's own `pawn_en_passant` test
(`test_piece_moves.rs`): black king d8, black pawns e7 and g7, white pawns
f5, d4 and e2, white king d1. -/
def boardEpTest : Board :=
  ((((((Board.emptyBoard.set 3 7 .king .black).set 4 6 .pawn .black).set 6 6 .pawn .black).set
    5 4 .pawn .white).set 3 3 .pawn .white).set 4 1 .pawn .white).set 3 0 .king .white

/-- The double pawn advance e7e5. -/
def moveE7E5 : Move := ⟨4, 6, 4, 4, none⟩

/-- The board of the en-passant test after black's e7e5 has been applied. -/
def boardEpTestAfter : Board :=
  match boardEpTest.makeMove? moveE7E5 with
  | some b => b
  | none => boardEpTest

/-- The game state of the en-passant test after e7e5: white to move, check
flag false (verified against the board in the C3 theorem), history holding
exactly the move e7e5.  `validate_move` reads no other fields. -/
def gameEpTest : Game := ⟨boardEpTestAfter, .white, [], false, ⟨none, none, [moveE7E5]⟩, none⟩

/-- White pawns on b7 and b5, black rooks on c8 and c6, white king a1,
black king h8: positions exercising promotion handling of pawn captures. -/
def boardPromotion : Board :=
  ((((Board.emptyBoard.set 1 6 .pawn .white).set 2 7 .rook .black).set
    1 4 .pawn .white).set 2 5 .rook .black |>.set 0 0 .king .white).set 7 7 .king .black

/-- The promotion-test game: white to move, not in check (verified in the
C7 theorem), empty history. -/
def gamePromotion : Game := ⟨boardPromotion, .white, [], false, GameHistory.newHistory, none⟩

/-- The freshly constructed standard game (the field values `Game::new`
assigns before collecting moves; `validate_move` reads no other fields). -/
def gameStandard : Game := ⟨Board.newChessGame, .white, [], false, GameHistory.newHistory, none⟩

/-- A minimal two-king board: white king a1, black king h8. -/
def boardTwoKings : Board := (Board.emptyBoard.set 0 0 .king .white).set 7 7 .king .black

/-- The game constructed by `Game::from_board` from the two-king board. -/
def gameTwoKings : Game :=
  match Game.fromBoard boardTwoKings .white with
  | some g => g
  | none => ⟨boardTwoKings, .white, [], false, GameHistory.newHistory, none⟩

/-- The successor game after white plays a1b1 in the two-king game. -/
def gameTwoKingsAfter : Game :=
  match gameTwoKings.makeMove ⟨0, 0, 1, 0, none⟩ with
  | some (.ok g) => g
  | _ => gameTwoKings

/-- Castle-ready board: white king e1, white rook h1, black king a8. -/
def boardCastleReady : Board :=
  ((Board.emptyBoard.set 4 0 .king .white).set 7 0 .rook .white).set 0 7 .king .black

/-- The castle-ready game: white to move, check flag false (matching the
board, as verified in the C6 witness), empty history. -/
def gameCastleReady : Game := ⟨boardCastleReady, .white, [], false, GameHistory.newHistory, none⟩

/-! Characterization lemmas for the embedded loops. -/

theorem mem_intRange {a b x : Int} : x ∈ intRange a b ↔ a ≤ x ∧ x < b := by
  simp only [intRange, List.mem_map, List.mem_range]
  constructor
  · rintro ⟨i, hi, rfl⟩
    constructor <;> omega
  · rintro ⟨h1, h2⟩
    refine ⟨(x - a).toNat, by omega, by omega⟩

theorem intRange_any_iff {a b : Int} {f : Int → Bool} :
    (intRange a b).any f = true ↔ ∃ x, a ≤ x ∧ x < b ∧ f x = true := by
  simp only [List.any_eq_true, mem_intRange]
  constructor
  · rintro ⟨x, ⟨h1, h2⟩, h3⟩
    exact ⟨x, h1, h2, h3⟩
  · rintro ⟨x, h1, h2, h3⟩
    exact ⟨x, ⟨h1, h2⟩, h3⟩

theorem mem_boardSquaresColMajor {p : Int × Int} :
    p ∈ boardSquaresColMajor ↔ (0 ≤ p.1 ∧ p.1 < 8) ∧ 0 ≤ p.2 ∧ p.2 < 8 := by
  obtain ⟨c, r⟩ := p
  simp only [boardSquaresColMajor, List.mem_flatMap, List.mem_map, mem_intRange, Prod.mk.injEq]
  constructor
  · rintro ⟨col, hcol, row, hrow, rfl, rfl⟩
    exact ⟨hcol, hrow⟩
  · rintro ⟨hc, hr⟩
    exact ⟨c, hc, r, hr, rfl, rfl⟩

theorem BoardSquare.piece_eq_some {s : BoardSquare} {t : PieceType} {c : PieceColor} :
    s.piece = some (t, c) ↔ s.pieceType = some t ∧ s.pieceColor = c := by
  unfold BoardSquare.piece
  rcases h : s.pieceType with _ | t2 <;> simp [h]

theorem attackerAt_iff {b : Board} {tc tr : Int} {ac : PieceColor} {c r : Int} :
    b.attackerAt tc tr ac c r = true ↔
      ∃ piece, (b.atSquare c r).piece = some (piece, ac) ∧
        b.attackCheck piece ac ⟨c, r, tc, tr, none⟩ = true := by
  unfold Board.attackerAt
  rcases hpc : (b.atSquare c r).piece with _ | ⟨piece, color⟩
  · simp
  · by_cases hcol : color = ac
    · subst hcol
      simp
    · simp only [ne_eq, hcol, not_false_eq_true, if_true]
      constructor
      · intro h
        cases h
      · rintro ⟨p, hp, -⟩
        injection hp with hp
        cases hp
        exact absurd rfl hcol

theorem isUnderAttack_iff {b : Board} {tc tr : Int} {ac : PieceColor} :
    b.isUnderAttack tc tr ac = true ↔
      ∃ c r piece, (0 ≤ c ∧ c < 8) ∧ (0 ≤ r ∧ r < 8) ∧
        (b.atSquare c r).piece = some (piece, ac) ∧
        b.attackCheck piece ac ⟨c, r, tc, tr, none⟩ = true := by
  unfold Board.isUnderAttack
  rw [intRange_any_iff]
  constructor
  · rintro ⟨c, hc0, hc8, hc⟩
    rw [intRange_any_iff] at hc
    obtain ⟨r, hr0, hr8, hbody⟩ := hc
    obtain ⟨piece, hpc, hatt⟩ := attackerAt_iff.mp hbody
    exact ⟨c, r, piece, ⟨hc0, hc8⟩, ⟨hr0, hr8⟩, hpc, hatt⟩
  · rintro ⟨c, r, piece, ⟨hc0, hc8⟩, ⟨hr0, hr8⟩, hpc, hatt⟩
    refine ⟨c, hc0, hc8, ?_⟩
    rw [intRange_any_iff]
    exact ⟨r, hr0, hr8, attackerAt_iff.mpr ⟨piece, hpc, hatt⟩⟩

theorem isKingSquare_iff {b : Board} {color : PieceColor} {q : Int × Int} :
    b.isKingSquare color q = true ↔
      (b.atSquare q.1 q.2).pieceType = some .king ∧ (b.atSquare q.1 q.2).pieceColor = color := by
  unfold Board.isKingSquare
  rcases hpc : (b.atSquare q.1 q.2).piece with _ | ⟨piece, color2⟩
  · rw [BoardSquare.piece] at hpc
    rcases ht : (b.atSquare q.1 q.2).pieceType with _ | t
    · simp [ht]
    · rw [ht] at hpc
      cases hpc
  · rw [BoardSquare.piece_eq_some] at hpc
    obtain ⟨h1, h2⟩ := hpc
    simp only [Bool.and_eq_true, decide_eq_true_eq, h1, h2, Option.some_inj]
    constructor
    · rintro ⟨ha, hb⟩
      exact ⟨hb, ha⟩
    · rintro ⟨ha, hb⟩
      exact ⟨hb, ha⟩

theorem findKing_some_spec {b : Board} {color : PieceColor} {p : Pos}
    (h : b.findKing color = some p) :
    (0 ≤ p.col ∧ p.col < 8) ∧ (0 ≤ p.row ∧ p.row < 8) ∧
      (b.atSquare p.col p.row).pieceType = some .king ∧
      (b.atSquare p.col p.row).pieceColor = color := by
  unfold Board.findKing at h
  rcases hf : boardSquaresColMajor.find? (b.isKingSquare color) with _ | q
  · rw [hf] at h
    cases h
  · rw [hf] at h
    have hp : p = ⟨q.1, q.2⟩ := by
      injection h with h2
      exact h2.symm
    subst hp
    have hpred := isKingSquare_iff.mp (List.find?_some hf)
    have hmem := mem_boardSquaresColMajor.mp (List.mem_of_find?_eq_some hf)
    exact ⟨hmem.1, hmem.2, hpred.1, hpred.2⟩

theorem findKing_isSome_of_king {b : Board} {color : PieceColor} {c r : Int}
    (hc : 0 ≤ c ∧ c < 8) (hr : 0 ≤ r ∧ r < 8)
    (hk : (b.atSquare c r).pieceType = some .king)
    (hcol : (b.atSquare c r).pieceColor = color) :
    (b.findKing color).isSome = true := by
  unfold Board.findKing
  rcases hf : boardSquaresColMajor.find? (b.isKingSquare color) with _ | q
  · rw [List.find?_eq_none] at hf
    have hmem : ((c, r) : Int × Int) ∈ boardSquaresColMajor :=
      mem_boardSquaresColMajor.mpr ⟨hc, hr⟩
    have hks : b.isKingSquare color (c, r) = true := isKingSquare_iff.mpr ⟨hk, hcol⟩
    exact absurd hks (by simpa using hf _ hmem)
  · simp

theorem validateMove_ok_check {g : Game} {m : Move}
    (h : g.validateMove m = some (.ok ())) :
    (g.board.atSquare m.fromCol m.fromRow).pieceColor = g.turn ∧
    ∃ b2, g.board.makeMove? m = some b2 ∧ b2.isCheck? g.turn = some false := by
  simp only [Game.validateMove] at h
  repeat first | split at h | simp at h
  rename_i hcolor hown hprom hvalid ob imitated hmk cb hck
  have hc : (g.board.atSquare m.fromCol m.fromRow).pieceColor = g.turn := by
    by_contra hne
    exact hcolor hne
  exact ⟨hc, imitated, hmk, by rw [← hc]; exact hck⟩

theorem validateCandidates_mem {g : Game} {l res : List Move} {m : Move}
    (h : validateCandidates g l = some res) (hm : m ∈ res) :
    g.validateMove m = some (.ok ()) := by
  induction l generalizing res with
  | nil =>
    simp only [validateCandidates, Option.some_inj] at h
    subst h
    cases hm
  | cons a as ih =>
    simp only [validateCandidates] at h
    split at h
    · cases h
    · rename_i u hva
      rcases Option.map_eq_some'.mp h with ⟨res2, hres2, rfl⟩
      rcases List.mem_cons.mp hm with rfl | hm2
      · cases u
        exact hva
      · exact ih hres2 hm2
    · exact ih h hm

theorem collectFromSquares_mem {g : Game} {squares : List (Int × Int)} {res : List Move}
    {m : Move} (h : collectFromSquares g squares = some res) (hm : m ∈ res) :
    g.validateMove m = some (.ok ()) := by
  induction squares generalizing res with
  | nil =>
    simp only [collectFromSquares, Option.some_inj] at h
    subst h
    cases hm
  | cons q rest ih =>
    obtain ⟨c, r⟩ := q
    simp only [collectFromSquares] at h
    split at h
    · exact ih h hm
    · split at h
      · cases h
      · rename_i l hl
        rcases Option.map_eq_some'.mp h with ⟨res2, hres2, rfl⟩
        rcases List.mem_append.mp hm with hm2 | hm2
        · exact validateCandidates_mem hl hm2
        · exact ih hres2 hm2

/-- Claim C4 (confirmed).  Every move yielded by the per-square generator
(the pseudo-candidate sequence filtered through `validate_move`), and hence
every move of the recomputed whole-board legal-move list, when applied to a
copy of the current board through `Board::make_move`, produces a board on
which the moving side's king exists and is not in check: the final
simulation step of `validate_move` checks exactly this. -/
theorem c4_generated_moves_never_leave_check :
    (∀ (g : Game) (col row : Int) (l : List Move) (m : Move),
      g.movesFromSquare col row = some l → m ∈ l →
      ∃ b2, g.board.makeMove? m = some b2 ∧ b2.isCheck? g.turn = some false) ∧
    (∀ (g : Game) (l : List Move) (m : Move),
      g.collectPossibleMoves = some l → m ∈ l →
      ∃ b2, g.board.makeMove? m = some b2 ∧ b2.isCheck? g.turn = some false) := by
  constructor
  · intro g col row l m hl hm
    exact (validateMove_ok_check (validateCandidates_mem hl hm)).2
  · intro g l m hl hm
    exact (validateMove_ok_check (collectFromSquares_mem hl hm)).2

/-- Witness for C4: in the two-king game the square a1 yields exactly the
three king moves, and applying the first of them leaves white out of
check. -/
theorem c4_witness :
    gameTwoKings.movesFromSquare 0 0 =
        some [⟨0, 0, 1, 0, none⟩, ⟨0, 0, 0, 1, none⟩, ⟨0, 0, 1, 1, none⟩] ∧
      (⟨0, 0, 1, 0, none⟩ : Move) ∈
        [(⟨0, 0, 1, 0, none⟩ : Move), ⟨0, 0, 0, 1, none⟩, ⟨0, 0, 1, 1, none⟩] ∧
      ∃ b2, gameTwoKings.board.makeMove? ⟨0, 0, 1, 0, none⟩ = some b2 ∧
        b2.isCheck? gameTwoKings.turn = some false :=
  ⟨rfl, by decide,
    c4_generated_moves_never_leave_check.1 gameTwoKings 0 0
      [⟨0, 0, 1, 0, none⟩, ⟨0, 0, 0, 1, none⟩, ⟨0, 0, 1, 1, none⟩] ⟨0, 0, 1, 0, none⟩ rfl
      (by decide)⟩

/-- Claim C1 (code-bug evidence).  The claim states that applying an
en-passant-pattern move through `Board::make_move` leaves the captured
pawn's square (destination file, source rank) empty.  On the board with a
white pawn on f5 and a black pawn on e5, the move f5e6 matches the
en-passant pattern before being applied, yet after `make_move` the black
pawn still stands on e5, the capturing pawn stands on e6 and only f5 was
cleared: the en-passant hook inside `make_move` runs after the source
square has been emptied, so it never fires. -/
theorem c1_make_move_keeps_captured_pawn :
    boardEnPassant.isEnPassantMove moveF5E6 = some ⟨5, 5⟩ ∧
    (boardEnPassant.makeMove? moveF5E6).map
        (fun b => (b.atSquare 4 4, b.atSquare 4 5, b.atSquare 5 4)) =
      some (⟨some .pawn, .black⟩, ⟨some .pawn, .white⟩, BoardSquare.emptySquare) :=
  ⟨rfl, rfl⟩

/-- Claim C2 (code-bug evidence).  The claim states that applying a
castle-pattern move through `Board::make_move` also relocates the rook.
On the board with a white king on e1 and a white rook on h1, the move e1g1
matches the castle pattern before being applied, yet after `make_move` the
rook still stands on h1 and f1 stays empty (the king does reach g1): the
castle hook inside `make_move` runs after the source square has been
emptied, so it never fires. -/
theorem c2_make_move_keeps_rook_in_place :
    boardCastle.isCastleMove moveE1G1 = some (⟨7, 0⟩, ⟨5, 0⟩) ∧
    (boardCastle.makeMove? moveE1G1).map
        (fun b => (b.atSquare 7 0, b.atSquare 5 0, b.atSquare 6 0, b.atSquare 4 0)) =
      some (⟨some .rook, .white⟩, BoardSquare.emptySquare, ⟨some .king, .white⟩,
        BoardSquare.emptySquare) :=
  ⟨rfl, rfl⟩

/-- Claim C3 (code-bug evidence).  The claim states that immediately after
an enemy pawn advances two squares to e5, the adjacent pawn on f5 has the
capture f5e6 accepted and listed.  In the position of the repository's own
`pawn_en_passant` test, after black's e7e5 (a successful `make_move`, with
the side to move not in check), `validate_move` rejects f5e6 with the
piece-geometry error and the legal-move list from f5 holds only the push
f5f6: `is_en_passant_move` reports the square `(from_col, to_row)` = f6
instead of the captured square e5, so the history comparison in
`validate_pawn_move` never matches a genuine double advance. -/
theorem c3_en_passant_rejected_after_double_advance :
    (boardEpTest.makeMove? moveE7E5).isSome = true ∧
    boardEpTestAfter.isCheck? .white = some false ∧
    gameEpTest.validateMove ⟨5, 4, 4, 5, none⟩ = some (.error "Invalid move for the piece") ∧
    gameEpTest.movesFromSquare 5 4 = some [⟨5, 4, 5, 5, none⟩] :=
  ⟨rfl, rfl, rfl, rfl⟩

/-- Claim C7 (code-bug evidence).  The claim states that a set promotion
field is accepted only for a pawn reaching the back rank, and that every
pawn move to the back rank without a promotion field is rejected.  With
white to move (not in check) on the board with white pawns b7 and b5 and
black rooks c8 and c6, `validate_move` accepts the capture b7c8 with no
promotion field (a pawn move onto the back rank), and also accepts b5c6
with promotion to queen (a capture far from the back rank), after which
`make_move` places a white queen on c6: `is_pawn_capture` never inspects
the promotion field. -/
theorem c7_promotion_gating_violated :
    boardPromotion.isCheck? .white = some false ∧
    gamePromotion.validateMove ⟨1, 6, 2, 7, none⟩ = some (.ok ()) ∧
    gamePromotion.validateMove ⟨1, 4, 2, 5, some .queen⟩ = some (.ok ()) ∧
    (boardPromotion.makeMove? ⟨1, 4, 2, 5, some .queen⟩).map (fun b => b.atSquare 2 5) =
      some ⟨some .queen, .white⟩ :=
  ⟨rfl, rfl, rfl, rfl⟩

/-- Claim C8 (amended).  `validate_move` returns the recoverable
out-of-bounds error whenever one of the four coordinates exceeds 7; the
check tests only the upper bounds, so negative coordinates are not
detected (see the counterexample theorem). -/
theorem c8_upper_out_of_bounds (g : Game) (m : Move)
    (h : m.fromCol > 7 ∨ m.fromRow > 7 ∨ m.toCol > 7 ∨ m.toRow > 7) :
    g.validateMove m = some (.error "Out of bounds") := by
  unfold Game.validateMove
  rw [if_pos h]

/-- Witness for C8: on the freshly constructed standard game, the move with
source column 8 is rejected with the out-of-bounds error. -/
theorem c8_witness :
    ((8 : Int) > 7 ∨ (0 : Int) > 7 ∨ (0 : Int) > 7 ∨ (1 : Int) > 7) ∧
    gameStandard.validateMove ⟨8, 0, 0, 1, none⟩ = some (.error "Out of bounds") :=
  ⟨by decide, c8_upper_out_of_bounds gameStandard ⟨8, 0, 0, 1, none⟩ (by decide)⟩

/-- Counterexample for C8 as stated: on the freshly constructed standard
game, the move from column -1 (an out-of-range coordinate) is not answered
with the out-of-bounds error — the upper-bound-only check lets it through,
the source square read aliases h1 (flat index 7), and validation proceeds
to reject the move as invalid rook geometry instead. -/
theorem c8_negative_coordinate_counterexample :
    gameStandard.validateMove ⟨-1, 1, 0, 2, none⟩ =
        some (.error "Invalid move for the piece") ∧
    gameStandard.validateMove ⟨-1, 1, 0, 2, none⟩ ≠ some (.error "Out of bounds") :=
  ⟨rfl, by decide⟩

/-- Claim C10 (confirmed).  Constructing a `Game` through `from_board` or
`from_board_with_history` from a board on which the side to move has no
king is fatal: construction immediately recomputes the check flag through
`Board::is_check`, whose king lookup panics (modelled by `none`) — no
error value is returned. -/
theorem c10_from_board_panics_without_king (b : Board) (turn : PieceColor)
    (history : GameHistory) (h : b.findKing turn = none) :
    Game.fromBoard b turn = none ∧ Game.fromBoardWithHistory b turn history = none := by
  constructor <;>
    simp [Game.fromBoard, Game.fromBoardWithHistory, Game.collectGameState, Board.isCheck?, h]

/-- Witness for C10: the empty board has no white king, and both
constructors are fatal on it. -/
theorem c10_witness :
    Board.emptyBoard.findKing .white = none ∧
    Game.fromBoard Board.emptyBoard .white = none ∧
    Game.fromBoardWithHistory Board.emptyBoard .white GameHistory.newHistory = none := by
  have h : Board.emptyBoard.findKing .white = none := by rfl
  have h2 := c10_from_board_panics_without_king Board.emptyBoard .white GameHistory.newHistory h
  exact ⟨h, h2.1, h2.2⟩

theorem coordsOutOfBounds_false {c r : Int} (h0 : 0 ≤ c) (h7 : c ≤ 7) (h0r : 0 ≤ r)
    (h7r : r ≤ 7) : coordsOutOfBounds c r = false := by
  unfold coordsOutOfBounds
  simp only [Bool.or_eq_false_iff, decide_eq_false_iff_not, not_lt]
  omega

theorem Move.new?_inbounds {fc fr tc tr : Int} (h1 : 0 ≤ fc ∧ fc ≤ 7) (h2 : 0 ≤ fr ∧ fr ≤ 7)
    (h3 : 0 ≤ tc ∧ tc ≤ 7) (h4 : 0 ≤ tr ∧ tr ≤ 7) :
    Move.new? fc fr tc tr = some ⟨fc, fr, tc, tr, none⟩ := by
  unfold Move.new?
  rw [coordsOutOfBounds_false h1.1 h1.2 h2.1 h2.2, coordsOutOfBounds_false h3.1 h3.2 h4.1 h4.2]
  rfl

theorem Move.withPromotion?_inbounds {fc fr tc tr : Int} {p : PieceType}
    (h1 : 0 ≤ fc ∧ fc ≤ 7) (h2 : 0 ≤ fr ∧ fr ≤ 7) (h3 : 0 ≤ tc ∧ tc ≤ 7) (h4 : 0 ≤ tr ∧ tr ≤ 7)
    (hp : p.isValidForPromotion = true) :
    Move.withPromotion? fc fr tc tr p = some ⟨fc, fr, tc, tr, some p⟩ := by
  unfold Move.withPromotion?
  rw [coordsOutOfBounds_false h1.1 h1.2 h2.1 h2.2, coordsOutOfBounds_false h3.1 h3.2 h4.1 h4.2,
    hp]
  rfl

theorem charRoundCol {c : Int} (h0 : 0 ≤ c) (h7 : c ≤ 7) :
    ((Char.ofNat (c + 97).toNat).toNat : Int) - 97 = c := by
  interval_cases c <;> decide

theorem charRoundRow {r : Int} (h0 : 0 ≤ r) (h7 : r ≤ 7) :
    ((Char.ofNat (r + 49).toNat).toNat : Int) - 49 = r := by
  interval_cases r <;> decide

/-- Claim C9 (confirmed).  For every constructible move — all four
coordinates in 0..7 and the promotion field absent or one of bishop,
knight, rook, queen — parsing the long-notation serialization produced by
the `Display` implementation with `Move::from_long_notation` returns
exactly the original move, promotion piece included. -/
theorem c9_long_round_trip (m : Move)
    (hfc : 0 ≤ m.fromCol ∧ m.fromCol ≤ 7) (hfr : 0 ≤ m.fromRow ∧ m.fromRow ≤ 7)
    (htc : 0 ≤ m.toCol ∧ m.toCol ≤ 7) (htr : 0 ≤ m.toRow ∧ m.toRow ≤ 7)
    (hp : m.promotionTo = none ∨ m.promotionTo = some .bishop ∨ m.promotionTo = some .knight ∨
      m.promotionTo = some .rook ∨ m.promotionTo = some .queen) :
    Move.fromLong m.toLong = some m := by
  obtain ⟨fc, fr, tc, tr, p⟩ := m
  simp only at hfc hfr htc htr
  have h113 : (Char.ofNat 113).toNat = 113 := by decide
  have h114 : (Char.ofNat 114).toNat = 114 := by decide
  have h98 : (Char.ofNat 98).toNat = 98 := by decide
  have h110 : (Char.ofNat 110).toNat = 110 := by decide
  rcases hp with hp | hp | hp | hp | hp <;> simp only at hp <;> subst hp <;>
      simp only [Move.toLong, pieceToPromotionChar] <;>
      unfold Move.fromLong <;>
      norm_num [List.getD, promotionCharToPiece, h113, h114, h98, h110] <;>
      rw [charRoundCol hfc.1 hfc.2, charRoundRow hfr.1 hfr.2, charRoundCol htc.1 htc.2,
        charRoundRow htr.1 htr.2]
  · exact Move.new?_inbounds hfc hfr htc htr
  · exact Move.withPromotion?_inbounds hfc hfr htc htr rfl
  · exact Move.withPromotion?_inbounds hfc hfr htc htr rfl
  · exact Move.withPromotion?_inbounds hfc hfr htc htr rfl
  · exact Move.withPromotion?_inbounds hfc hfr htc htr rfl

/-- Witness for C9: the promotion move a2b1n round-trips. -/
theorem c9_witness :
    ((0 : Int) ≤ 0 ∧ (0 : Int) ≤ 7) ∧ ((0 : Int) ≤ 1 ∧ (1 : Int) ≤ 7) ∧
      ((0 : Int) ≤ 1 ∧ (1 : Int) ≤ 7) ∧ ((0 : Int) ≤ 0 ∧ (0 : Int) ≤ 7) ∧
      Move.fromLong (Move.toLong ⟨0, 1, 1, 0, some .knight⟩) = some ⟨0, 1, 1, 0, some .knight⟩ :=
  ⟨⟨by decide, by decide⟩, ⟨by decide, by decide⟩, ⟨by decide, by decide⟩,
    ⟨by decide, by decide⟩,
    c9_long_round_trip ⟨0, 1, 1, 0, some .knight⟩ ⟨by decide, by decide⟩ ⟨by decide, by decide⟩
      ⟨by decide, by decide⟩ ⟨by decide, by decide⟩ (by simp)⟩

theorem makeMove_ok_spec {g g2 : Game} {m : Move} (h : g.makeMove m = some (.ok g2)) :
    ∃ g1 : Game, g1.result = none ∧ g1.collectGameState = some g2 := by
  simp only [Game.makeMove] at h
  split at h
  · simp at h
  · rename_i hres
    split at h
    · cases h
    · simp at h
    · split at h
      · cases h
      · rename_i b2 hb2
        split at h
        · cases h
        · rename_i g3 hg3
          simp only [Option.some_inj, Except.ok.injEq] at h
          subst h
          refine ⟨_, ?_, hg3⟩
          simpa using hres

theorem collectGameState_post {g g2 : Game} (h : g.collectGameState = some g2)
    (hres : g.result = none) :
    g2.result.isSome = g2.possibleMoves.isEmpty ∧
    ∀ res, g2.result = some res →
      res.winner = if g2.isCheck then some g2.turn.opposite else none := by
  simp only [Game.collectGameState] at h
  split at h
  · cases h
  · rename_i chk hchk
    split at h
    · cases h
    · rename_i moves hmoves
      rw [Option.some_inj] at h
      subst h
      constructor
      · by_cases he : moves.isEmpty = true
        · simp [he]
        · simp only [Bool.not_eq_true] at he
          simp [he, hres]
      · intro res hresEq
        by_cases he : moves.isEmpty = true
        · simp only [he, if_true] at hresEq
          simp only [Option.some_inj] at hresEq
          subst hresEq
          cases chk <;> simp
        · simp only [Bool.not_eq_true] at he
          simp [he, hres] at hresEq

/-- Claim C5 (confirmed).  After every successful `make_move`, and after
every successful construction from an arbitrary board (with or without
history), the game result is set exactly when the recomputed legal-move
list of the side to move is empty; and a set result carries the winner
equal to the opposite of the side to move exactly when that side is in
check, and no winner (a draw) otherwise. -/
theorem c5_result_iff_no_moves :
    (∀ (g g2 : Game) (m : Move), g.makeMove m = some (.ok g2) →
      g2.result.isSome = g2.possibleMoves.isEmpty ∧
      ∀ res, g2.result = some res →
        res.winner = if g2.isCheck then some g2.turn.opposite else none) ∧
    (∀ (b : Board) (t : PieceColor) (g2 : Game), Game.fromBoard b t = some g2 →
      g2.result.isSome = g2.possibleMoves.isEmpty ∧
      ∀ res, g2.result = some res →
        res.winner = if g2.isCheck then some g2.turn.opposite else none) ∧
    (∀ (b : Board) (t : PieceColor) (hist : GameHistory) (g2 : Game),
      Game.fromBoardWithHistory b t hist = some g2 →
      g2.result.isSome = g2.possibleMoves.isEmpty ∧
      ∀ res, g2.result = some res →
        res.winner = if g2.isCheck then some g2.turn.opposite else none) := by
  refine ⟨?_, ?_, ?_⟩
  · intro g g2 m h
    obtain ⟨g1, hres, hcol⟩ := makeMove_ok_spec h
    exact collectGameState_post hcol hres
  · intro b t g2 h
    exact collectGameState_post h rfl
  · intro b t hist g2 h
    exact collectGameState_post h rfl

/-- Witness for C5: in the two-king game, white's a1b1 succeeds; in the
resulting game (and in the constructed game itself) the result is unset and
the legal-move list nonempty, in agreement with the theorem. -/
theorem c5_witness :
    gameTwoKings.makeMove ⟨0, 0, 1, 0, none⟩ = some (.ok gameTwoKingsAfter) ∧
    Game.fromBoard boardTwoKings .white = some gameTwoKings ∧
    (gameTwoKingsAfter.result.isSome = gameTwoKingsAfter.possibleMoves.isEmpty ∧
      ∀ res, gameTwoKingsAfter.result = some res →
        res.winner = if gameTwoKingsAfter.isCheck then some gameTwoKingsAfter.turn.opposite
          else none) ∧
    (gameTwoKings.result.isSome = gameTwoKings.possibleMoves.isEmpty ∧
      ∀ res, gameTwoKings.result = some res →
        res.winner = if gameTwoKings.isCheck then some gameTwoKings.turn.opposite else none) :=
  ⟨rfl, rfl,
    c5_result_iff_no_moves.1 gameTwoKings gameTwoKingsAfter ⟨0, 0, 1, 0, none⟩ rfl,
    c5_result_iff_no_moves.2.1 boardTwoKings .white gameTwoKings rfl⟩

theorem getIndex_inj {c r c2 r2 : Int} (hc : 0 ≤ c ∧ c < 8) (hc2 : 0 ≤ c2 ∧ c2 < 8) :
    Board.getIndex c r = Board.getIndex c2 r2 ↔ c = c2 ∧ r = r2 := by
  unfold Board.getIndex
  constructor
  · intro h
    constructor <;> omega
  · rintro ⟨rfl, rfl⟩
    rfl

theorem atSquare_set_self {b : Board} {c r : Int} {pt : PieceType} {pc : PieceColor} :
    (b.set c r pt pc).atSquare c r = BoardSquare.mkWith pt pc := by
  simp [Board.set, Board.atSquare]

theorem atSquare_set_ne {b : Board} {c r c2 r2 : Int} {pt : PieceType} {pc : PieceColor}
    (h : Board.getIndex c2 r2 ≠ Board.getIndex c r) :
    (b.set c r pt pc).atSquare c2 r2 = b.atSquare c2 r2 := by
  simp [Board.set, Board.atSquare, h]

theorem atSquare_clear_self {b : Board} {c r : Int} :
    (b.clearSquare c r).atSquare c r = BoardSquare.emptySquare := by
  simp [Board.clearSquare, Board.atSquare]

theorem atSquare_clear_ne {b : Board} {c r c2 r2 : Int}
    (h : Board.getIndex c2 r2 ≠ Board.getIndex c r) :
    (b.clearSquare c r).atSquare c2 r2 = b.atSquare c2 r2 := by
  simp [Board.clearSquare, Board.atSquare, h]

theorem PieceColor.opposite_ne (t : PieceColor) : t.opposite ≠ t := by
  cases t <;> decide



theorem makeMove?_plain {b : Board} {m : Move} {ty : PieceType}
    (hprom : m.promotionTo = none)
    (hty : (b.atSquare m.fromCol m.fromRow).pieceType = some ty)
    (hne : Board.getIndex m.fromCol m.fromRow ≠ Board.getIndex m.toCol m.toRow) :
    b.makeMove? m = some ((b.clearSquare m.fromCol m.fromRow).set m.toCol m.toRow ty
      (b.atSquare m.fromCol m.fromRow).pieceColor) := by
  have hat1 : ((b.clearSquare m.fromCol m.fromRow).set m.toCol m.toRow ty
      (b.atSquare m.fromCol m.fromRow).pieceColor).atSquare m.fromCol m.fromRow =
      BoardSquare.emptySquare := by
    rw [atSquare_set_ne hne, atSquare_clear_self]
  have hep : Board.isEnPassantMove ((b.clearSquare m.fromCol m.fromRow).set m.toCol m.toRow ty
      (b.atSquare m.fromCol m.fromRow).pieceColor) m = none := by
    simp only [Board.isEnPassantMove, hat1]
    rfl
  have hcm : Board.isCastleMove ((b.clearSquare m.fromCol m.fromRow).set m.toCol m.toRow ty
      (b.atSquare m.fromCol m.fromRow).pieceColor) m = none := by
    simp only [Board.isCastleMove]
    split
    · rfl
    · split
      · rfl
      · rw [hat1]
        rfl
  simp only [Board.makeMove?, hprom, hty, hep, hcm]


theorem any_intRange_eq_false {a b : Int} {f : Int → Bool} :
    (intRange a b).any f = false ↔ ∀ x, a ≤ x → x < b → f x = false := by
  rw [List.any_eq_false]
  constructor
  · intro h x h1 h2
    have := h x (mem_intRange.mpr ⟨h1, h2⟩)
    simpa using this
  · intro h x hx
    have := h x (mem_intRange.mp hx).1 (mem_intRange.mp hx).2
    simp [this]

theorem overStraight_horiz {b : Board} {m : Move} (h : m.fromRow = m.toRow) :
    b.isMoveOverPiecesStraight m =
      (intRange (min m.fromCol m.toCol + 1) (max m.fromCol m.toCol)).any
        (fun col => (b.atSquare col m.fromRow).isOccupied) := by
  unfold Board.isMoveOverPiecesStraight
  rw [if_pos h]

theorem overStraight_vert {b : Board} {m : Move} (h : m.fromRow ≠ m.toRow) :
    b.isMoveOverPiecesStraight m =
      (intRange (min m.fromRow m.toRow + 1) (max m.fromRow m.toRow)).any
        (fun row => (b.atSquare m.fromCol row).isOccupied) := by
  unfold Board.isMoveOverPiecesStraight
  rw [if_neg h]

theorem overDiag_eq {b : Board} {m : Move} :
    b.isMoveOverPiecesDiagonal m =
      (intRange 1 ((m.fromCol - m.toCol).natAbs : Int)).any (fun i =>
        (b.atSquare (m.fromCol + i * (m.toCol - m.fromCol).sign)
          (m.fromRow + i * (m.toRow - m.fromRow).sign)).isOccupied) := by
  unfold Board.isMoveOverPiecesDiagonal
  rfl

theorem findKing_unique {b : Board} {t : PieceColor} {c r : Int}
    (hc : 0 ≤ c ∧ c < 8) (hr : 0 ≤ r ∧ r < 8)
    (hk : (b.atSquare c r).pieceType = some .king) (hcol : (b.atSquare c r).pieceColor = t)
    (huniq : ∀ p ∈ boardSquaresColMajor,
      ((b.atSquare p.1 p.2).pieceType = some .king ∧ (b.atSquare p.1 p.2).pieceColor = t) →
      p = (c, r)) :
    b.findKing t = some ⟨c, r⟩ := by
  unfold Board.findKing
  rcases hf : boardSquaresColMajor.find? (b.isKingSquare t) with _ | q
  · exfalso
    rw [List.find?_eq_none] at hf
    exact absurd (isKingSquare_iff.mpr ⟨hk, hcol⟩)
      (by simpa using hf _ ((mem_boardSquaresColMajor (p := (c, r))).mpr ⟨hc, hr⟩))
  · have hq := isKingSquare_iff.mp (List.find?_some hf)
    have hqm := List.mem_of_find?_eq_some hf
    have heq := huniq q hqm hq
    rw [heq]



theorem overStraight_vertL {b : Board} {fc fr tc2 tr : Int} (h : fr ≠ tr) :
    b.isMoveOverPiecesStraight ⟨fc, fr, tc2, tr, none⟩ =
      (intRange (min fr tr + 1) (max fr tr)).any (fun ρ => (b.atSquare fc ρ).isOccupied) := by
  unfold Board.isMoveOverPiecesStraight
  rw [if_neg h]

theorem overStraight_horizL {b : Board} {fc fr tc2 tr : Int} (h : fr = tr) :
    b.isMoveOverPiecesStraight ⟨fc, fr, tc2, tr, none⟩ =
      (intRange (min fc tc2 + 1) (max fc tc2)).any (fun κ => (b.atSquare κ fr).isOccupied) := by
  unfold Board.isMoveOverPiecesStraight
  rw [if_pos h]

theorem overDiagL {b : Board} {fc fr tc2 tr : Int} :
    b.isMoveOverPiecesDiagonal ⟨fc, fr, tc2, tr, none⟩ =
      (intRange 1 ((fc - tc2).natAbs : Int)).any (fun i =>
        (b.atSquare (fc + i * (tc2 - fc).sign) (fr + i * (tr - fr).sign)).isOccupied) := by
  unfold Board.isMoveOverPiecesDiagonal
  rfl

theorem isStraightL {fc fr tc2 tr : Int} {p : Option PieceType} :
    Move.isStraight ⟨fc, fr, tc2, tr, p⟩ = true ↔ fc = tc2 ∨ fr = tr := by
  simp [Move.isStraight]

theorem isDiagonalL {fc fr tc2 tr : Int} {p : Option PieceType} :
    Move.isDiagonal ⟨fc, fr, tc2, tr, p⟩ = true ↔ (fc - tc2).natAbs = (fr - tr).natAbs := by
  simp [Move.isDiagonal]


theorem castle_simulation_safe
    {b : Board} {t : PieceColor} {row toCol : Int}
    (hrow : row = 0 ∨ row = 7) (htc : toCol = 6 ∨ toCol = 2)
    (huniq : ∀ p ∈ boardSquaresColMajor,
      ((b.atSquare p.1 p.2).pieceType = some .king ∧ (b.atSquare p.1 p.2).pieceColor = t) →
      p = (4, row))
    (hatt : ∀ col, ((if toCol = 6 then (4 : Int) else 2) ≤ col ∧
        col < (if toCol = 6 then (7 : Int) else 5)) →
      b.isUnderAttack col row t.opposite = false) :
    ((b.clearSquare 4 row).set toCol row .king t).isCheck? t = some false := by
  have hbt : 0 ≤ toCol ∧ toCol < 8 := by rcases htc with rfl | rfl <;> norm_num
  have hbr : 0 ≤ row ∧ row < 8 := by rcases hrow with rfl | rfl <;> norm_num
  have hpost : ∀ c2 r2 : Int, 0 ≤ c2 → c2 < 8 →
      ((b.clearSquare 4 row).set toCol row .king t).atSquare c2 r2 =
        if c2 = toCol ∧ r2 = row then (⟨some .king, t⟩ : BoardSquare)
        else if c2 = 4 ∧ r2 = row then BoardSquare.emptySquare
        else b.atSquare c2 r2 := by
    intro c2 r2 h0 h8
    by_cases h1 : c2 = toCol ∧ r2 = row
    · obtain ⟨rfl, rfl⟩ := h1
      rw [if_pos ⟨rfl, rfl⟩, atSquare_set_self]
      rfl
    · rw [if_neg h1, atSquare_set_ne (by rw [ne_eq, getIndex_inj ⟨h0, h8⟩ hbt]; exact h1)]
      by_cases h2 : c2 = 4 ∧ r2 = row
      · obtain ⟨rfl, rfl⟩ := h2
        rw [if_pos ⟨rfl, rfl⟩, atSquare_clear_self]
      · rw [if_neg h2,
          atSquare_clear_ne (by rw [ne_eq, getIndex_inj ⟨h0, h8⟩ (by norm_num)]; exact h2)]
  have hfk : ((b.clearSquare 4 row).set toCol row .king t).findKing t = some ⟨toCol, row⟩ := by
    apply findKing_unique hbt hbr
    · rw [hpost toCol row hbt.1 hbt.2, if_pos ⟨rfl, rfl⟩]
    · rw [hpost toCol row hbt.1 hbt.2, if_pos ⟨rfl, rfl⟩]
    · intro p hp hkp
      obtain ⟨hp1, hp2⟩ := mem_boardSquaresColMajor.mp hp
      rw [hpost p.1 p.2 hp1.1 hp1.2] at hkp
      by_cases e1 : p.1 = toCol ∧ p.2 = row
      · rw [Prod.ext_iff]
        exact e1
      · rw [if_neg e1] at hkp
        by_cases e2 : p.1 = 4 ∧ p.2 = row
        · rw [if_pos e2] at hkp
          exact absurd hkp.1 (by simp [BoardSquare.emptySquare])
        · rw [if_neg e2] at hkp
          exact absurd (Prod.ext_iff.mp (huniq p hp hkp)) e2
  have hua : ((b.clearSquare 4 row).set toCol row .king t).isUnderAttack toCol row
      t.opposite = false := by
    by_contra hcon
    rw [Bool.not_eq_false] at hcon
    obtain ⟨c, r, piece, hc8, hr8, hpc, hatk⟩ := isUnderAttack_iff.mp hcon
    rw [hpost c r hc8.1 hc8.2] at hpc
    by_cases e1 : c = toCol ∧ r = row
    · rw [if_pos e1, BoardSquare.piece_eq_some] at hpc
      exact (PieceColor.opposite_ne t) hpc.2.symm
    · rw [if_neg e1] at hpc
      by_cases e2 : c = 4 ∧ r = row
      · rw [if_pos e2] at hpc
        exact absurd hpc (by simp [BoardSquare.emptySquare, BoardSquare.piece])
      · rw [if_neg e2] at hpc
        have hrange_toCol : ((if toCol = 6 then (4 : Int) else 2) ≤ toCol ∧
            toCol < (if toCol = 6 then (7 : Int) else 5)) := by
          rcases htc with rfl | rfl <;> norm_num
        have hrange4 : ((if toCol = 6 then (4 : Int) else 2) ≤ (4 : Int) ∧
            (4 : Int) < (if toCol = 6 then (7 : Int) else 5)) := by
          rcases htc with rfl | rfl <;> norm_num
        have hPreAttack : ∀ tcX : Int,
            ((if toCol = 6 then (4 : Int) else 2) ≤ tcX ∧
              tcX < (if toCol = 6 then (7 : Int) else 5)) →
            b.attackCheck piece t.opposite ⟨c, r, tcX, row, none⟩ = true → False := by
          intro tcX hXr hchk
          have hpre : b.isUnderAttack tcX row t.opposite = true :=
            isUnderAttack_iff.mpr ⟨c, r, piece, hc8, hr8, hpc, hchk⟩
          rw [hatt tcX hXr] at hpre
          cases hpre
        have hStraight :
            Move.isStraight ⟨c, r, toCol, row, none⟩ = true →
            Board.isMoveOverPiecesStraight ((b.clearSquare 4 row).set toCol row .king t)
              ⟨c, r, toCol, row, none⟩ = false →
            ∃ tcX, ((if toCol = 6 then (4 : Int) else 2) ≤ tcX ∧
              tcX < (if toCol = 6 then (7 : Int) else 5)) ∧
              b.isPossibleRookCapture ⟨c, r, tcX, row, none⟩ = true := by
          intro hstr hnov
          rcases isStraightL.mp hstr with hceq | hreq
          · -- same file as the castle target square
            subst hceq
            have hrne : r ≠ row := fun h => e1 ⟨rfl, h⟩
            refine ⟨c, hrange_toCol, ?_⟩
            unfold Board.isPossibleRookCapture
            rw [overStraight_vertL hrne] at hnov
            rw [any_intRange_eq_false] at hnov
            have hov : Board.isMoveOverPiecesStraight b ⟨c, r, c, row, none⟩ = false := by
              rw [overStraight_vertL hrne, any_intRange_eq_false]
              intro ρ hρ1 hρ2
              have hρrow : ρ ≠ row := by omega
              have hv := hnov ρ hρ1 hρ2
              rw [hpost c ρ hc8.1 hc8.2] at hv
              rwa [if_neg (fun hx => hρrow hx.2), if_neg (fun hx => hρrow hx.2)] at hv
            rw [isStraightL.mpr (Or.inl rfl), hov]
            rfl
          · -- same rank as the castle target square
            subst hreq
            have hc4 : c ≠ 4 := fun h => e2 ⟨h, rfl⟩
            have hct : c ≠ toCol := fun h => e1 ⟨h, rfl⟩
            rw [overStraight_horizL rfl, any_intRange_eq_false] at hnov
            by_cases hbet : min c toCol < 4 ∧ 4 < max c toCol
            · -- the vacated king square e1 lies on the path: attack e1 instead
              refine ⟨4, hrange4, ?_⟩
              unfold Board.isPossibleRookCapture
              have hov : Board.isMoveOverPiecesStraight b ⟨c, r, 4, r, none⟩ = false := by
                rw [overStraight_horizL rfl, any_intRange_eq_false]
                intro κ hκ1 hκ2
                have hκm : min c toCol + 1 ≤ κ ∧ κ < max c toCol := by
                  rcases htc with rfl | rfl <;> omega
                have hκ8 : 0 ≤ κ ∧ κ < 8 := by omega
                have hκ4 : κ ≠ 4 := by omega
                have hκt : κ ≠ toCol := by rcases htc with rfl | rfl <;> omega
                have hv := hnov κ hκm.1 hκm.2
                rw [hpost κ r hκ8.1 hκ8.2] at hv
                rwa [if_neg (fun hx => hκt hx.1), if_neg (fun hx => hκ4 hx.1)] at hv
              rw [isStraightL.mpr (Or.inr rfl), hov]
              rfl
            · -- the path misses e1: the same attack already existed
              refine ⟨toCol, hrange_toCol, ?_⟩
              unfold Board.isPossibleRookCapture
              have hov : Board.isMoveOverPiecesStraight b ⟨c, r, toCol, r, none⟩ = false := by
                rw [overStraight_horizL rfl, any_intRange_eq_false]
                intro κ hκ1 hκ2
                have hκ8 : 0 ≤ κ ∧ κ < 8 := by omega
                have hκ4 : κ ≠ 4 := by omega
                have hκt : κ ≠ toCol := by omega
                have hv := hnov κ hκ1 hκ2
                rw [hpost κ r hκ8.1 hκ8.2] at hv
                rwa [if_neg (fun hx => hκt hx.1), if_neg (fun hx => hκ4 hx.1)] at hv
              rw [isStraightL.mpr (Or.inr rfl), hov]
              rfl
        have hDiag :
            Move.isDiagonal ⟨c, r, toCol, row, none⟩ = true →
            Board.isMoveOverPiecesDiagonal ((b.clearSquare 4 row).set toCol row .king t)
              ⟨c, r, toCol, row, none⟩ = false →
            b.isPossibleBishopCapture ⟨c, r, toCol, row, none⟩ = true := by
          intro hdg hnov
          have hd := isDiagonalL.mp hdg
          have hrne : r ≠ row := by
            intro h
            exact e1 ⟨by omega, h⟩
          have hcne : c ≠ toCol := by omega
          unfold Board.isPossibleBishopCapture
          rw [overDiagL, any_intRange_eq_false] at hnov
          have hov : Board.isMoveOverPiecesDiagonal b ⟨c, r, toCol, row, none⟩ = false := by
            rw [overDiagL, any_intRange_eq_false]
            intro i hi1 hi2
            have hv := hnov i hi1 hi2
            have hsh : ((toCol - c).sign = 1 ∧ c < toCol) ∨
                ((toCol - c).sign = -1 ∧ toCol < c) := by
              rcases lt_or_gt_of_ne hcne with h | h
              · exact Or.inl ⟨Int.sign_eq_one_iff_pos.mpr (by omega), h⟩
              · exact Or.inr ⟨Int.sign_eq_neg_one_iff_neg.mpr (by omega), h⟩
            have hsv : ((row - r).sign = 1 ∧ r < row) ∨
                ((row - r).sign = -1 ∧ row < r) := by
              rcases lt_or_gt_of_ne hrne with h | h
              · exact Or.inl ⟨Int.sign_eq_one_iff_pos.mpr (by omega), h⟩
              · exact Or.inr ⟨Int.sign_eq_neg_one_iff_neg.mpr (by omega), h⟩
            have hcol8 : 0 ≤ c + i * (toCol - c).sign ∧ c + i * (toCol - c).sign < 8 := by
              rcases hsh with ⟨hs, hlt⟩ | ⟨hs, hlt⟩ <;> rw [hs] <;> omega
            have hrne2 : r + i * (row - r).sign ≠ row := by
              rcases hsv with ⟨hs, hlt⟩ | ⟨hs, hlt⟩ <;> rw [hs] <;> omega
            rw [hpost _ _ hcol8.1 hcol8.2] at hv
            rwa [if_neg (fun hx => hrne2 hx.2), if_neg (fun hx => hrne2 hx.2)] at hv
          rw [hdg, hov]
          rfl
        cases piece with
        | pawn => exact hPreAttack toCol hrange_toCol hatk
        | knight => exact hPreAttack toCol hrange_toCol hatk
        | king => exact hPreAttack toCol hrange_toCol hatk
        | rook =>
          have h2 : ((b.clearSquare 4 row).set toCol row .king t).isPossibleRookCapture
              ⟨c, r, toCol, row, none⟩ = true := hatk
          unfold Board.isPossibleRookCapture at h2
          rw [Bool.and_eq_true] at h2
          obtain ⟨tcX, hXr, hcap⟩ := hStraight h2.1 (by simpa using h2.2)
          exact hPreAttack tcX hXr hcap
        | bishop =>
          have h2 : ((b.clearSquare 4 row).set toCol row .king t).isPossibleBishopCapture
              ⟨c, r, toCol, row, none⟩ = true := hatk
          unfold Board.isPossibleBishopCapture at h2
          rw [Bool.and_eq_true] at h2
          exact hPreAttack toCol hrange_toCol (hDiag h2.1 (by simpa using h2.2))
        | queen =>
          have h2 : ((b.clearSquare 4 row).set toCol row .king t).isPossibleQueenCapture
              ⟨c, r, toCol, row, none⟩ = true := hatk
          unfold Board.isPossibleQueenCapture at h2
          rw [Bool.or_eq_true] at h2
          rcases h2 with h3 | h3
          · unfold Board.isPossibleRookCapture at h3
            rw [Bool.and_eq_true] at h3
            obtain ⟨tcX, hXr, hcap⟩ := hStraight h3.1 (by simpa using h3.2)
            apply hPreAttack tcX hXr
            show b.isPossibleQueenCapture ⟨c, r, tcX, row, none⟩ = true
            unfold Board.isPossibleQueenCapture
            rw [hcap]
            rfl
          · unfold Board.isPossibleBishopCapture at h3
            rw [Bool.and_eq_true] at h3
            have hcap := hDiag h3.1 (by simpa using h3.2)
            apply hPreAttack toCol hrange_toCol
            show b.isPossibleQueenCapture ⟨c, r, toCol, row, none⟩ = true
            unfold Board.isPossibleQueenCapture
            rw [hcap]
            simp
  unfold Board.isCheck?
  rw [hfk]
  simp [hua]



theorem isCastleMove_some_spec {b : Board} {m : Move} {rp nrp : Pos}
    (h : b.isCastleMove m = some (rp, nrp)) :
    m.fromCol = 4 ∧ (m.fromRow = 0 ∨ m.fromRow = 7) ∧ m.toRow = m.fromRow ∧
    (m.toCol = 6 ∨ m.toCol = 2) ∧
    (b.atSquare m.fromCol m.fromRow).pieceType = some .king ∧
    ((b.atSquare m.fromCol m.fromRow).pieceColor = .white → m.fromRow = 0) ∧
    ((b.atSquare m.fromCol m.fromRow).pieceColor = .black → m.fromRow = 7) ∧
    rp = ⟨if m.toCol = 6 then 7 else 0, m.fromRow⟩ ∧
    nrp = ⟨if m.toCol = 6 then 5 else 3, m.fromRow⟩ := by
  simp only [Board.isCastleMove] at h
  split at h
  · cases h
  · rename_i h1
    split at h
    · cases h
    · rename_i h2
      split at h
      · cases h
      · rename_i pt pc hpiece
        split at h
        · cases h
        · rename_i h3
          split at h
          · cases h
          · rename_i h4
            split at h
            · cases h
            · rename_i h5
              split at h
              · cases h
              · rename_i h6
                rw [Option.some_inj, Prod.mk.injEq] at h
                obtain ⟨hpt, hpc⟩ := BoardSquare.piece_eq_some.mp hpiece
                have hptk : pt = .king := not_ne_iff.mp h3
                subst hptk
                refine ⟨by omega, by omega, by omega, by omega, hpt, ?_, ?_, h.1.symm, h.2.symm⟩
                · intro hw
                  rw [hpc] at hw
                  by_contra hn
                  exact h4 ⟨hw, hn⟩
                · intro hbk
                  rw [hpc] at hbk
                  by_contra hn
                  exact h5 ⟨hbk, hn⟩

theorem isPossibleCastleMove_some_spec {b : Board} {m : Move} {rp nrp : Pos}
    (h : b.isPossibleCastleMove m = some (rp, nrp)) :
    b.isCastleMove m = some (rp, nrp) ∧
    (b.atSquare rp.col rp.row).pieceType = some .rook ∧
    (b.atSquare rp.col rp.row).pieceColor = (b.atSquare m.fromCol m.fromRow).pieceColor ∧
    (∀ col, col ∈ (if m.toCol = 6 then intRange 4 7 else intRange 2 5) →
      b.isUnderAttack col m.fromRow
        (b.atSquare m.fromCol m.fromRow).pieceColor.opposite = false) ∧
    (∀ col, col ∈ (if m.toCol = 6 then intRange 5 7 else intRange 1 4) →
      (b.atSquare col m.fromRow).isOccupied = false) := by
  simp only [Board.isPossibleCastleMove] at h
  split at h
  · cases h
  · rename_i rookPos newRookPos hcm
    split at h
    · cases h
    · rename_i pt2 pc2 hrook
      split at h
      · cases h
      · rename_i hrk
        by_cases h6 : m.toCol = 6
        all_goals first
          | rw [if_pos h6, if_pos h6] at h
          | rw [if_neg h6, if_neg h6] at h
        all_goals
        · split at h
          · cases h
          · rename_i hattAny
            split at h
            · cases h
            · rename_i hoccAny
              rw [Option.some_inj, Prod.mk.injEq] at h
              obtain ⟨h7, h8⟩ := h
              subst h7
              subst h8
              push_neg at hrk
              obtain ⟨hpt2, hpc2⟩ := BoardSquare.piece_eq_some.mp hrook
              have hptr : pt2 = .rook := hrk.1
              subst hptr
              refine ⟨hcm, hpt2, by rw [hpc2, hrk.2], ?_, ?_⟩
              · intro col hcol
                rw [Bool.not_eq_true, List.any_eq_false] at hattAny
                first
                  | rw [if_pos h6] at hcol
                  | rw [if_neg h6] at hcol
                have := hattAny col hcol
                simpa using this
              · intro col hcol
                rw [Bool.not_eq_true, List.any_eq_false] at hoccAny
                first
                  | rw [if_pos h6] at hcol
                  | rw [if_neg h6] at hcol
                have := hoccAny col hcol
                simpa using this


theorem validateMove_ok_parts {g : Game} {m : Move} (h : g.validateMove m = some (.ok ())) :
    (g.board.atSquare m.fromCol m.fromRow).pieceColor = g.turn ∧
    (g.board.atSquare m.toCol m.toRow).isOccupiedByColor
      (g.board.atSquare m.fromCol m.fromRow).pieceColor = false ∧
    ∃ pt, (g.board.atSquare m.fromCol m.fromRow).pieceType = some pt ∧
      (match pt with
        | PieceType.pawn =>
          match g.validatePawnMove m (g.board.atSquare m.fromCol m.fromRow).pieceColor with
          | .ok _ => true
          | .error _ => false
        | PieceType.bishop => g.board.isPossibleBishopCapture m
        | PieceType.knight => m.isKnightMove
        | PieceType.rook => g.board.isPossibleRookCapture m
        | PieceType.queen => g.board.isPossibleQueenCapture m
        | PieceType.king =>
          match g.validateKingMove m with
          | .ok _ => true
          | .error _ => false) = true := by
  simp only [Game.validateMove] at h
  split at h
  · cases h
  · split at h
    · cases h
    · split at h
      · cases h
      · rename_i pt hpt
        split at h
        · cases h
        · rename_i hcolor
          split at h
          · cases h
          · rename_i hown
            split at h
            · cases h
            · split at h
              · cases h
              · rename_i hvalid
                refine ⟨not_ne_iff.mp hcolor, by simpa using hown, pt, hpt, ?_⟩
                simpa using hvalid

theorem c6_forward {g : Game} {m : Move} {rp nrp : Pos}
    (hcm : g.board.isCastleMove m = some (rp, nrp))
    (hok : g.validateMove m = some (.ok ())) :
    (g.board.isPossibleCastleMove m).isSome = true ∧ g.isCheck = false ∧
    g.history.moves.any (fun hMv => decide (hMv.fromRow = m.fromRow) &&
      (decide (hMv.fromCol = m.fromCol) || decide (hMv.fromCol = rp.col))) = false := by
  obtain ⟨hfc, hfr, htr, htcol, hkingT, hw0, hb7, hrp, hnrp⟩ := isCastleMove_some_spec hcm
  obtain ⟨hturn, hown, pt, hpt, hvalid⟩ := validateMove_ok_parts hok
  rw [hkingT, Option.some_inj] at hpt
  subst hpt
  have hreg : m.isRegularKingMove = false := by
    have h2 : (m.fromCol - m.toCol).natAbs = 2 := by omega
    simp [Move.isRegularKingMove, h2]
  have hkm : g.validateKingMove m = .ok () := by
    rcases hkmc : g.validateKingMove m with e | u
    · rw [hkmc] at hvalid
      simp at hvalid
    · cases u
      rfl
  unfold Game.validateKingMove at hkm
  split at hkm
  · rename_i hcond
    rw [hreg, Bool.false_or] at hcond
    unfold Game.isLegalCastleMove at hcond
    split at hcond
    · cases hcond
    · rename_i orp onrp hposs
      have horp : orp = rp := by
        have h1 := (isPossibleCastleMove_some_spec hposs).1
        rw [hcm, Option.some_inj, Prod.mk.injEq] at h1
        exact h1.1.symm
      rw [horp] at hcond
      by_cases hchk : g.isCheck = true
      · rw [if_pos hchk] at hcond
        cases hcond
      · rw [if_neg hchk] at hcond
        by_cases hany : (g.history.moves.any (fun hMv => decide (hMv.fromRow = m.fromRow) &&
            (decide (hMv.fromCol = m.fromCol) || decide (hMv.fromCol = rp.col)))) = true
        · rw [if_pos hany] at hcond
          cases hcond
        · refine ⟨by rw [hposs]; rfl, by simpa using hchk, by simpa using hany⟩
  · cases hkm


theorem c6_backward {g : Game} {m : Move} {rp nrp : Pos}
    (hcm : g.board.isCastleMove m = some (rp, nrp))
    (hprom : m.promotionTo = none)
    (hturn : (g.board.atSquare m.fromCol m.fromRow).pieceColor = g.turn)
    (huniq : ∀ p ∈ boardSquaresColMajor,
      ((g.board.atSquare p.1 p.2).pieceType = some .king ∧
        (g.board.atSquare p.1 p.2).pieceColor = g.turn) → p = (m.fromCol, m.fromRow))
    (hposs : (g.board.isPossibleCastleMove m).isSome = true)
    (hchk : g.isCheck = false)
    (hhist : g.history.moves.any (fun hMv => decide (hMv.fromRow = m.fromRow) &&
      (decide (hMv.fromCol = m.fromCol) || decide (hMv.fromCol = rp.col))) = false) :
    g.validateMove m = some (.ok ()) := by
  obtain ⟨⟨orp, onrp⟩, hposs2⟩ := Option.isSome_iff_exists.mp hposs
  have hspec := isPossibleCastleMove_some_spec hposs2
  have hpair : orp = rp ∧ onrp = nrp := by
    have h1 := hspec.1
    rw [hcm, Option.some_inj, Prod.mk.injEq] at h1
    exact ⟨h1.1.symm, h1.2.symm⟩
  obtain ⟨rfl, rfl⟩ : orp = rp ∧ onrp = nrp := hpair
  obtain ⟨hfc, hfr, htr, htcol, hkingT, hw0, hb7, hrp, hnrp⟩ := isCastleMove_some_spec hcm
  have hownb : (g.board.atSquare m.toCol m.toRow).isOccupiedByColor
      (g.board.atSquare m.fromCol m.fromRow).pieceColor = false := by
    have hmem : m.toCol ∈ (if m.toCol = 6 then intRange 5 7 else intRange 1 4) := by
      rcases htcol with h6 | h2
      · rw [if_pos h6, h6]
        rw [mem_intRange]
        norm_num
      · rw [if_neg (by omega), h2]
        rw [mem_intRange]
        norm_num
    have hocc := hspec.2.2.2.2 m.toCol hmem
    rw [htr]
    unfold BoardSquare.isOccupiedByColor
    rw [hocc]
    rfl
  have hleg : g.isLegalCastleMove m = true := by
    unfold Game.isLegalCastleMove
    simp only [hposs2]
    rw [if_neg (by rw [hchk]; exact fun hx => Bool.false_ne_true hx)]
    rw [if_neg (by rw [hhist]; exact fun hx => Bool.false_ne_true hx)]
  have hkm : g.validateKingMove m = .ok () := by
    unfold Game.validateKingMove
    rw [if_pos (by rw [hleg, Bool.or_true])]
  have hidx : Board.getIndex m.fromCol m.fromRow ≠ Board.getIndex m.toCol m.toRow := by
    rw [ne_eq, getIndex_inj ⟨by omega, by omega⟩ ⟨by omega, by omega⟩]
    rintro ⟨hx, -⟩
    omega
  have hmk := makeMove?_plain hprom hkingT hidx
  have hsim : ((g.board.clearSquare m.fromCol m.fromRow).set m.toCol m.toRow .king
      (g.board.atSquare m.fromCol m.fromRow).pieceColor).isCheck?
      (g.board.atSquare m.fromCol m.fromRow).pieceColor = some false := by
    have hcolor4 : (g.board.atSquare 4 m.fromRow).pieceColor =
        (g.board.atSquare m.fromCol m.fromRow).pieceColor := by
      rw [hfc]
    rw [hfc, htr]
    apply castle_simulation_safe hfr htcol
    · intro p hp hk
      rw [hcolor4, hturn] at hk
      have := huniq p hp hk
      rw [hfc] at this
      exact this
    · intro col hcol
      rw [hcolor4]
      have hmem : col ∈ (if m.toCol = 6 then intRange 4 7 else intRange 2 5) := by
        rcases htcol with h6 | h2
        · rw [if_pos h6]
          rw [h6] at hcol
          simp only [if_pos rfl] at hcol
          exact mem_intRange.mpr hcol
        · rw [if_neg (by omega)]
          rw [h2] at hcol
          simp only [if_neg (by norm_num : ¬(2 : Int) = 6)] at hcol
          exact mem_intRange.mpr hcol
      exact hspec.2.2.2.1 col hmem
  simp only [Game.validateMove]
  rw [if_neg (by omega)]
  rw [if_neg (by omega)]
  simp only [hkingT]
  rw [if_neg (by rw [hturn]; exact fun hx => hx rfl)]
  rw [if_neg (by rw [hownb]; exact fun hx => Bool.false_ne_true hx)]
  rw [if_neg (fun hx => hx.2 hprom)]
  simp only [hkm]
  rw [if_neg (by norm_num)]
  rw [hmk]
  simp only [hsim]

/-- Claim C6 (confirmed).  For a game whose cached state comes from the
constructors (so the check flag mirrors the board), a castle-shaped move
(`is_castle_move` succeeds) without promotion field, moving the side to
move's unique king: `validate_move` accepts it exactly when the board-level
castle conditions hold (`is_possible_castle_move`: rook on its home square,
empty path, no attacked square among those the king starts on, crosses or
lands on), the cached check flag is clear, and no history entry departs
from the king's or that rook's home square on that rank.  In particular a
king or rook that moved away and returned still forfeits the castle, while
the other castle stays available. -/
theorem c6_castle_acceptance_iff (g : Game) (m : Move) (rp nrp : Pos)
    (hcm : g.board.isCastleMove m = some (rp, nrp))
    (hprom : m.promotionTo = none)
    (hturn : (g.board.atSquare m.fromCol m.fromRow).pieceColor = g.turn)
    (huniq : ∀ p ∈ boardSquaresColMajor,
      ((g.board.atSquare p.1 p.2).pieceType = some .king ∧
        (g.board.atSquare p.1 p.2).pieceColor = g.turn) → p = (m.fromCol, m.fromRow)) :
    g.validateMove m = some (.ok ()) ↔
      ((g.board.isPossibleCastleMove m).isSome = true ∧ g.isCheck = false ∧
        g.history.moves.any (fun hMv => decide (hMv.fromRow = m.fromRow) &&
          (decide (hMv.fromCol = m.fromCol) || decide (hMv.fromCol = rp.col))) = false) := by
  constructor
  · exact c6_forward hcm
  · rintro ⟨h1, h2, h3⟩
    exact c6_backward hcm hprom hturn huniq h1 h2 h3

/-- Witness for C6: in the castle-ready position (white king e1, white rook
h1, black king a8, empty history) the equivalence holds for e1g1, and both
sides of it are true. -/
theorem c6_witness :
    boardCastleReady.isCastleMove ⟨4, 0, 6, 0, none⟩ = some (⟨7, 0⟩, ⟨5, 0⟩) ∧
    (gameCastleReady.validateMove ⟨4, 0, 6, 0, none⟩ = some (.ok ()) ↔
      ((boardCastleReady.isPossibleCastleMove ⟨4, 0, 6, 0, none⟩).isSome = true ∧
        gameCastleReady.isCheck = false ∧
        gameCastleReady.history.moves.any (fun hMv => decide (hMv.fromRow = (0 : Int)) &&
          (decide (hMv.fromCol = (4 : Int)) ||
            decide (hMv.fromCol = (Pos.col ⟨7, 0⟩)))) = false)) :=
  ⟨rfl,
    c6_castle_acceptance_iff gameCastleReady ⟨4, 0, 6, 0, none⟩ ⟨7, 0⟩ ⟨5, 0⟩ rfl rfl rfl
      (by decide)⟩

end RustChess
